import Mathlib

/-!
Verification development for the travel-itinerary manager (`aichatbot.py`).

The Python source is shallowly embedded: pure helpers become Lean functions,
in-place mutation becomes explicit state passing, raised exceptions become
`Option`/`Except`-style results, and Python `float` budgets are modelled as
rationals.  `datetime` values produced by `strptime("%Y-%m-%d")` carry no
time component and are modelled by a plain year/month/day structure.
-/

/-! ## Decimal digits: rendering and parsing character sequences -/

/-- The decimal digit character for `n < 10` (placeholder otherwise). -/
def digitChar : Nat → Char
  | 0 => '0' | 1 => '1' | 2 => '2' | 3 => '3' | 4 => '4'
  | 5 => '5' | 6 => '6' | 7 => '7' | 8 => '8' | 9 => '9'
  | _ => '*'

/-- Numeric value of a decimal digit character, `none` for non-digits. -/
def digitVal (c : Char) : Option Nat :=
  if '0' ≤ c ∧ c ≤ '9' then some (c.toNat - 48) else none

/-- Fold a run of decimal digit characters onto an accumulator;
fails on the first non-digit. -/
def parseDigitsAux (acc : Nat) : List Char → Option Nat
  | [] => some acc
  | c :: cs =>
    match digitVal c with
    | some d => parseDigitsAux (acc * 10 + d) cs
    | none => none

/-- Parse a nonempty all-digit character sequence as a natural number. -/
def parseDigits (cs : List Char) : Option Nat :=
  match cs with
  | [] => none
  | _ :: _ => parseDigitsAux 0 cs

/-- Value of an all-digit character sequence (junk on non-digits). -/
def digitsVal (cs : List Char) : Nat :=
  cs.foldl (fun a c => a * 10 + (c.toNat - 48)) 0

/-- Decimal rendering of a natural number, most significant digit first. -/
def natToDigits (n : Nat) : List Char :=
  if _h : n < 10 then [digitChar n]
  else natToDigits (n / 10) ++ [digitChar (n % 10)]
termination_by n
decreasing_by exact Nat.div_lt_self (by omega) (by omega)

/-- Left-pad a character sequence with `'0'` up to width `w`
(as the zero padding of `strftime` numeric fields). -/
def padLeft (w : Nat) (cs : List Char) : List Char :=
  List.replicate (w - cs.length) '0' ++ cs

/-! ## Calendar dates (the date part of Python `datetime`) -/

/-- Gregorian leap-year rule used by Python's `datetime`. -/
def isLeap (y : Nat) : Bool :=
  y % 4 == 0 && (y % 100 != 0 || y % 400 == 0)

/-- Number of days in month `m` of year `y` (Python `calendar` rule). -/
def daysInMonth (y m : Nat) : Nat :=
  if m = 2 then (if isLeap y then 29 else 28)
  else if m = 4 ∨ m = 6 ∨ m = 9 ∨ m = 11 then 30
  else 31

/-- A `datetime` value restricted to its date components (the only values the
program ever builds: `strptime("%Y-%m-%d")` yields midnight times). -/
structure PyDate where
  year : Nat
  month : Nat
  day : Nat
deriving DecidableEq, Repr

/-- The range constraints `datetime(year, month, day)` enforces
(`MINYEAR = 1`, `MAXYEAR = 9999`, valid month and day-of-month). -/
def PyDate.valid (d : PyDate) : Bool :=
  decide (1 ≤ d.year ∧ d.year ≤ 9999 ∧ 1 ≤ d.month ∧ d.month ≤ 12 ∧
    1 ≤ d.day ∧ d.day ≤ daysInMonth d.year d.month)

/-- Strict `<` on datetimes: lexicographic on (year, month, day). -/
def dateLt (a b : PyDate) : Bool :=
  a.year < b.year ||
    (a.year == b.year &&
      (a.month < b.month || (a.month == b.month && a.day < b.day)))

/-- Split a character sequence at every `'-'` (like matching the literal
dashes of the `"%Y-%m-%d"` format). -/
def splitDash : List Char → List (List Char)
  | [] => [[]]
  | c :: rest =>
    if c = '-' then [] :: splitDash rest
    else
      match splitDash rest with
      | [] => [[c]]
      | p :: ps => (c :: p) :: ps

/-- Embeds `parse_date` / `datetime.strptime(s, "%Y-%m-%d")`: a four-digit
year, one or two digit month and day separated by dashes, nothing else in the
string; the numeric ranges are those enforced by the `%m`/`%d` patterns and
the `datetime` constructor.  `none` models a raised `ValueError`. -/
def parse_date (s : String) : Option PyDate :=
  match splitDash s.toList with
  | [ys, ms, ds] =>
    if ys.length = 4 ∧ 1 ≤ ms.length ∧ ms.length ≤ 2 ∧ 1 ≤ ds.length ∧ ds.length ≤ 2 then
      match parseDigits ys, parseDigits ms, parseDigits ds with
      | some y, some m, some d =>
        if 1 ≤ y ∧ 1 ≤ m ∧ m ≤ 12 ∧ 1 ≤ d ∧ d ≤ daysInMonth y m then
          some ⟨y, m, d⟩
        else none
      | _, _, _ => none
    else none
  | _ => none

/-- Embeds `valid_date`: whether `strptime` succeeds on the string. -/
def valid_date (s : String) : Bool :=
  (parse_date s).isSome

/-- Embeds `strftime("%Y-%m-%d")` on a date: zero-padded four-digit year and
two-digit month and day (the canonical `YYYY-MM-DD` rendering of the
persisted format). -/
def formatDate (d : PyDate) : String :=
  String.mk (padLeft 4 (natToDigits d.year) ++
    '-' :: (padLeft 2 (natToDigits d.month) ++
      '-' :: padLeft 2 (natToDigits d.day)))

/-! ## Budget parsing (`float` and `check_positive`) -/

/-- Whitespace stripped by Python's `float` (and `str.strip`). -/
def isWs (c : Char) : Bool :=
  c = ' ' || c = '\t' || c = '\n' || c = '\r'

/-- Embeds the decimal core of Python's `float(s)`: optional surrounding
whitespace, an optional sign, digits with an optional fractional part
(`"5"`, `"5."`, `".5"`, `"-2.75"`).  Exponent notation, `inf`/`nan` and
underscore separators are not modelled.  `none` models a raised
`ValueError`. -/
def parseFloat (s : String) : Option ℚ :=
  let cs := ((s.toList.dropWhile isWs).reverse.dropWhile isWs).reverse
  let signed : ℚ × List Char :=
    match cs with
    | '-' :: r => (-1, r)
    | '+' :: r => (1, r)
    | _ => (1, cs)
  let ip := signed.2.takeWhile fun c => '0' ≤ c && c ≤ '9'
  let rest := signed.2.dropWhile fun c => '0' ≤ c && c ≤ '9'
  match rest with
  | [] => if ip.isEmpty then none else some (signed.1 * (digitsVal ip : ℚ))
  | '.' :: fr =>
    if (fr.all fun c => '0' ≤ c && c ≤ '9') && !(ip.isEmpty && fr.isEmpty) then
      some (signed.1 * ((digitsVal ip : ℚ) + (digitsVal fr : ℚ) / (10 : ℚ) ^ fr.length))
    else none
  | _ => none

/-- Embeds `check_positive`: `v = float(s)`, raise if `v <= 0`, else return
`v`.  `none` models a raised `ValueError` (either from `float` or from the
positivity check). -/
def check_positive (s : String) : Option ℚ :=
  match parseFloat s with
  | none => none
  | some v => if v ≤ 0 then none else some v

/-! ## JSON values -/

/-- JSON values as produced by `json.load` (numbers as rationals). -/
inductive Json where
  | null
  | bool (b : Bool)
  | num (q : ℚ)
  | str (s : String)
  | arr (xs : List Json)
  | obj (fields : List (String × Json))

/-- Lookup in a parsed JSON object.  `json.load` builds a `dict`, where a
later duplicate key overwrites an earlier one, so the last binding wins.
`none` models a raised `KeyError`. -/
def lookupLast (fs : List (String × Json)) (k : String) : Option Json :=
  match fs with
  | [] => none
  | (k', v) :: rest =>
    match lookupLast rest k with
    | some r => some r
    | none => if k' = k then some v else none

/-! ## The `Destination` entity -/

/-- Embeds the `Destination` instance state set by `__init__` (the six data
attributes, with their types on the validated construction path). -/
structure Destination where
  city : String
  country : String
  start_date : PyDate
  end_date : PyDate
  budget : ℚ
  activities : List String
deriving DecidableEq, Repr

/-- The six data attribute names set by `Destination.__init__`. -/
def fieldNames : List String :=
  ["city", "country", "start_date", "end_date", "budget", "activities"]

/-- The attributes `Destination` instances carry beyond the data fields:
the class's own methods (`hasattr` also finds these).  Attributes inherited
from `object` (dunders such as `__class__`) exist in CPython as well but are
not enumerated here; none of the stated properties involves them. -/
def classAttrNames : List String :=
  ["__init__", "update_details", "to_dict", "from_dict", "__str__"]

/-- Embeds `hasattr(self, k)` on a `Destination` instance. -/
def destHasAttr (k : String) : Bool :=
  decide (k ∈ fieldNames) || decide (k ∈ classAttrNames)

/-- The values the program passes as keyword arguments to `update_details`
(strings, parsed dates, budget numbers, activity lists). -/
inductive Val where
  | vs (v : String)
  | vd (v : PyDate)
  | vq (v : ℚ)
  | vl (v : List String)
deriving DecidableEq, Repr

/-- Embeds `setattr(self, k, v)` restricted to the six modelled fields.
In CPython an assignment to any other attribute name (for instance a method
name such as `"to_dict"`) creates or shadows an instance attribute outside
the six data fields, and an ill-typed assignment stores the value unchecked;
both leave the six modelled fields unchanged, which is what the fall-through
case records. -/
def Destination.setAttr (d : Destination) (k : String) (v : Val) : Destination :=
  match k, v with
  | "city", .vs s => { d with city := s }
  | "country", .vs s => { d with country := s }
  | "start_date", .vd t => { d with start_date := t }
  | "end_date", .vd t => { d with end_date := t }
  | "budget", .vq q => { d with budget := q }
  | "activities", .vl l => { d with activities := l }
  | _, _ => d

/-- Embeds `Destination.update_details(**kwargs)`: iterate the keyword
arguments in call order; skip `None` values; set the attribute when
`hasattr` holds; otherwise raise `AttributeError` (the offending key is
returned, and the mutations already performed persist, since Python raises
out of the loop on a partially mutated object). -/
def Destination.update_details (d : Destination) :
    List (String × Option Val) → Destination × Option String
  | [] => (d, none)
  | (_, none) :: rest => d.update_details rest
  | (k, some v) :: rest =>
    if destHasAttr k then (d.setAttr k v).update_details rest
    else (d, some k)

/-- Embeds `Destination.to_dict`: dates rendered as `YYYY-MM-DD` strings,
budget as a number, activities as a list of strings. -/
def Destination.to_dict (d : Destination) : Json :=
  .obj [("city", .str d.city), ("country", .str d.country),
    ("start_date", .str (formatDate d.start_date)),
    ("end_date", .str (formatDate d.end_date)),
    ("budget", .num d.budget),
    ("activities", .arr (d.activities.map Json.str))]

/-- A `Destination` as built by `from_dict`.  That path is dynamically
typed: `d["city"]`, `d["country"]`, `d["budget"]` and `d["activities"]` are
stored without any type check, so those fields hold arbitrary JSON values;
only the two dates are forced through `strptime` (which raises unless the
value is a string in the expected format). -/
structure LoadedDestination where
  city : Json
  country : Json
  start_date : PyDate
  end_date : PyDate
  budget : Json
  activities : Json

/-- Embeds `Destination.from_dict(d)`: look up the six keys (a missing key
raises `KeyError`), parse the two date strings with `strptime` (raising
`TypeError` on a non-string and `ValueError` on a malformed string), and
pass the other four values through unvalidated.  `none` models a raised
exception. -/
def Destination.from_dict (j : Json) : Option LoadedDestination :=
  match j with
  | .obj fs =>
    match lookupLast fs "city", lookupLast fs "country",
        lookupLast fs "start_date", lookupLast fs "end_date",
        lookupLast fs "budget", lookupLast fs "activities" with
    | some c, some co, some (.str sd), some (.str ed), some b, some a =>
      match parse_date sd, parse_date ed with
      | some psd, some ped => some ⟨c, co, psd, ped, b, a⟩
      | _, _ => none
    | _, _, _, _, _, _ => none
  | _ => none

/-- The injection of a statically typed `Destination` into the dynamically
typed shape `from_dict` produces. -/
def Destination.toLoaded (d : Destination) : LoadedDestination :=
  ⟨.str d.city, .str d.country, d.start_date, d.end_date,
    .num d.budget, .arr (d.activities.map Json.str)⟩

/-! ## The `ItineraryManager` -/

/-- Lowercasing as in `str.lower` (modelled on the ASCII range). -/
def lowerStr (s : String) : String :=
  String.mk (s.toList.map Char.toLower)

/-- The match used by `remove_destination` and `update_destination`:
`d.city.lower() == city.lower()`. -/
def cityMatch (d : Destination) (city : String) : Bool :=
  lowerStr d.city == lowerStr city

/-- Contiguous-substring test, as Python's `in` on strings. -/
def isSubstr (n : List Char) : List Char → Bool
  | [] => n.isEmpty
  | c :: t => n.isPrefixOf (c :: t) || isSubstr n t

/-- The manager state: `self.destinations`, an ordered list. -/
structure ItineraryManager where
  destinations : List Destination
deriving DecidableEq, Repr

/-- Embeds `ItineraryManager.search_destination`: lowercase the term once,
then keep (in order) the destinations whose lowercased city, country, or
some lowercased activity contains it.  The method only reads
`self.destinations`; the returned pair carries the (unchanged) state and
the result list. -/
def ItineraryManager.search_destination (m : ItineraryManager) (s : String) :
    ItineraryManager × List Destination :=
  let sl := s.toList.map Char.toLower
  (m, m.destinations.filter fun d =>
    isSubstr sl (d.city.toList.map Char.toLower) ||
      isSubstr sl (d.country.toList.map Char.toLower) ||
      d.activities.any fun a => isSubstr sl (a.toList.map Char.toLower))

/-- Spec-side matching predicate, phrased from the specification's words:
the destination's city, country, or some activity string contains the term
as a case-insensitive substring. -/
def specMatch (term : String) (d : Destination) : Bool :=
  isSubstr (term.toList.map Char.toLower) (d.city.toList.map Char.toLower) ||
    isSubstr (term.toList.map Char.toLower) (d.country.toList.map Char.toLower) ||
    d.activities.any fun a =>
      isSubstr (term.toList.map Char.toLower) (a.toList.map Char.toLower)

/-- Embeds Python's `list.remove(x)`: delete the first element equal to `x`
(no-op on no occurrence; the source only calls it on present elements). -/
def removeFirst (ds : List Destination) (x : Destination) : List Destination :=
  match ds with
  | [] => []
  | d :: tl => if d = x then tl else d :: removeFirst tl x

/-- Embeds `ItineraryManager.remove_destination(city)`: collect the
case-insensitive city matches; if none, report `False`; otherwise
`list.remove` each collected entry in turn and report `True`.  The state is
passed and returned explicitly. -/
def remove_destination (ds : List Destination) (city : String) :
    List Destination × Bool :=
  let dlist := ds.filter fun d => cityMatch d city
  if dlist.isEmpty then (ds, false)
  else (dlist.foldl removeFirst ds, true)

/-- Embeds `ItineraryManager.update_destination(city, **kwargs)`: walk the
list; on each case-insensitive city match run `update_details`.  A raised
`AttributeError` aborts the walk (`.error k`), with the mutations already
performed kept; otherwise `.ok found` reports whether some entry matched. -/
def update_destination :
    List Destination → String → List (String × Option Val) →
      List Destination × Except String Bool
  | [], _, _ => ([], .ok false)
  | d :: tl, city, kw =>
    if cityMatch d city then
      match d.update_details kw with
      | (d', some k) => (d' :: tl, .error k)
      | (d', none) =>
        match update_destination tl city kw with
        | (tl', .ok _) => (d' :: tl', .ok true)
        | (tl', .error k) => (d' :: tl', .error k)
    else
      match update_destination tl city kw with
      | (tl', r) => (d :: tl', r)

/-! ## Persistence: `load_from_file` -/

/-- Embeds Python iteration over the value `json.load` returned: lists
yield their elements, dicts their keys, strings their one-character
substrings; other values raise `TypeError` (modelled as `none`). -/
def iterElems (j : Json) : Option (List Json) :=
  match j with
  | .arr xs => some xs
  | .obj fs => some (fs.map fun kv => Json.str kv.1)
  | .str s => some (s.toList.map fun c => Json.str (String.mk [c]))
  | _ => none

/-- The list comprehension `[Destination.from_dict(d) for d in data]`:
iterate `data` and decode each element; any raised exception aborts the
whole comprehension before `self.destinations` is assigned. -/
def decodeData (j : Json) : Option (List LoadedDestination) :=
  match iterElems j with
  | none => none
  | some xs => xs.mapM Destination.from_dict

/-- What the file system and `json.load` yield for the given path:
no file, an `IOError` while reading, a `json.JSONDecodeError`, or a parsed
JSON value. -/
inductive FileState where
  | missing
  | ioError
  | badJson
  | json (j : Json)

/-- Observable outcome of `load_from_file`: the final `self.destinations`,
whether the `"Error loading file"` diagnostic was printed, and whether an
exception escaped the method. -/
structure LoadOutcome where
  destinations : List LoadedDestination
  diagnostic : Bool
  exceptionRaised : Bool

/-- Embeds `ItineraryManager.load_from_file`: a missing file silently
resets the collection; `IOError` and `json.JSONDecodeError` are caught,
reported, and reset the collection; but an exception raised while decoding
the parsed JSON (`KeyError`, `TypeError`, `ValueError` from `from_dict` or
from iterating a non-iterable value) is not in the `except` clause, so it
propagates and `self.destinations` keeps its prior value `cur`. -/
def load_from_file (cur : List LoadedDestination) (fs : FileState) : LoadOutcome :=
  match fs with
  | .missing => ⟨[], false, false⟩
  | .ioError => ⟨[], true, false⟩
  | .badJson => ⟨[], true, false⟩
  | .json j =>
    match decodeData j with
    | some ds => ⟨ds, false, false⟩
    | none => ⟨cur, false, true⟩

/-! ## The validated construction path: `add_flow` -/

/-- The outcomes of `add_flow` (each failure branch prints and returns). -/
inductive AddFlowResult where
  | invalid_start_date
  | invalid_end_date
  | invalid_budget
  | empty_activities
  | invalid_date_range
  | added (d : Destination)
deriving DecidableEq, Repr

/-- Embeds `add_flow` after input collection: check the start and end date
strings with `valid_date`, parse the budget with `check_positive` (any
exception prints "Invalid budget"), require a nonempty activities list, and
finally reject when `parse_date(start) > parse_date(end)`.  Since
`valid_date s` is exactly `(parse_date s).isSome`, the early format checks
are phrased directly through `parse_date`. -/
def add_flow (city country start end_ budget : String)
    (activities : List String) : AddFlowResult :=
  match parse_date start with
  | none => .invalid_start_date
  | some ps =>
    match parse_date end_ with
    | none => .invalid_end_date
    | some pe =>
      match check_positive budget with
      | none => .invalid_budget
      | some b =>
        if activities.isEmpty then .empty_activities
        else if dateLt pe ps then .invalid_date_range
        else .added ⟨city, country, ps, pe, b, activities⟩

/-! ## Concrete sample values -/

/-- A sample destination (the spec's end-to-end example). -/
def parisDest : Destination :=
  ⟨"Paris", "France", ⟨2025, 6, 1⟩, ⟨2025, 6, 10⟩, 2000, ["museum", "food"]⟩

/-- A second sample destination sharing a city name. -/
def goaDest1 : Destination :=
  ⟨"Goa", "India", ⟨2025, 1, 5⟩, ⟨2025, 1, 9⟩, 1500, ["beach"]⟩

/-- Another `"Goa"` entry, to exercise multi-match semantics. -/
def goaDest2 : Destination :=
  ⟨"Goa", "India", ⟨2025, 2, 1⟩, ⟨2025, 2, 3⟩, 800, ["surfing", "food"]⟩

/-- A sample prior in-memory collection element for the load model. -/
def sampleLoaded : LoadedDestination := parisDest.toLoaded

/-! ## Lemmas: decimal digits round-trip -/

theorem digitVal_digitChar (n : Nat) (h : n < 10) :
    digitVal (digitChar n) = some n := by
  interval_cases n <;> rfl

theorem digitChar_ne_dash (n : Nat) : digitChar n ≠ '-' := by
  unfold digitChar
  split <;> decide

theorem parseDigitsAux_append (a : Nat) (xs ys : List Char) :
    parseDigitsAux a (xs ++ ys) =
      (parseDigitsAux a xs).bind fun a' => parseDigitsAux a' ys := by
  induction xs generalizing a with
  | nil => rfl
  | cons c cs ih =>
    simp only [List.cons_append, parseDigitsAux]
    cases digitVal c with
    | none => rfl
    | some d => simpa using ih (a * 10 + d)

theorem natToDigits_ne_dash (n : Nat) : ∀ c ∈ natToDigits n, c ≠ '-' := by
  induction n using Nat.strong_induction_on with
  | _ n ih =>
    by_cases h : n < 10
    · rw [natToDigits, dif_pos h]
      intro c hc
      rw [List.mem_singleton] at hc
      subst hc
      exact digitChar_ne_dash n
    · rw [natToDigits, dif_neg h]
      intro c hc
      rcases List.mem_append.mp hc with hc | hc
      · exact ih (n / 10) (Nat.div_lt_self (by omega) (by omega)) c hc
      · rw [List.mem_singleton] at hc
        subst hc
        exact digitChar_ne_dash _

theorem natToDigits_ne_nil (n : Nat) : natToDigits n ≠ [] := by
  by_cases h : n < 10
  · rw [natToDigits, dif_pos h]; simp
  · rw [natToDigits, dif_neg h]; simp

theorem parseDigitsAux_natToDigits (n : Nat) : ∀ a : Nat,
    parseDigitsAux a (natToDigits n) =
      some (a * 10 ^ (natToDigits n).length + n) := by
  induction n using Nat.strong_induction_on with
  | _ n ih =>
    intro a
    by_cases h : n < 10
    · rw [natToDigits, dif_pos h]
      simp [parseDigitsAux, digitVal_digitChar n h]
    · rw [natToDigits, dif_neg h]
      rw [parseDigitsAux_append,
        ih (n / 10) (Nat.div_lt_self (by omega) (by omega)) a]
      have h10 : n % 10 < 10 := Nat.mod_lt _ (by omega)
      simp only [Option.some_bind, parseDigitsAux, digitVal_digitChar (n % 10) h10,
        List.length_append, List.length_singleton]
      have hpow : (10:Nat) ^ ((natToDigits (n / 10)).length + 1) =
          10 ^ (natToDigits (n / 10)).length * 10 := by ring
      rw [hpow]
      congr 1
      have hmod := Nat.div_add_mod n 10
      ring_nf
      omega

theorem natToDigits_length_le (n : Nat) : ∀ k : Nat, 0 < k → n < 10 ^ k →
    (natToDigits n).length ≤ k := by
  induction n using Nat.strong_induction_on with
  | _ n ih =>
    intro k hk h
    by_cases hn : n < 10
    · rw [natToDigits, dif_pos hn]
      simpa using hk
    · rw [natToDigits, dif_neg hn]
      have hk2 : 2 ≤ k := by
        rcases k with _ | _ | k
        · omega
        · exfalso; rw [pow_one] at h; omega
        · omega
      have hpow : (10:Nat) ^ (k - 1) * 10 = 10 ^ k := by
        rw [← pow_succ]
        congr 1
        omega
      have hdiv : n / 10 < 10 ^ (k - 1) := by
        rw [Nat.div_lt_iff_lt_mul (by omega), hpow]
        exact h
      have hlen := ih (n / 10) (Nat.div_lt_self (by omega) (by omega))
        (k - 1) (by omega) hdiv
      rw [List.length_append, List.length_singleton]
      omega

theorem parseDigitsAux_replicate_zero (k : Nat) (cs : List Char) :
    parseDigitsAux 0 (List.replicate k '0' ++ cs) = parseDigitsAux 0 cs := by
  induction k with
  | zero => rfl
  | succ k ih =>
    have hd : digitVal '0' = some 0 := rfl
    simp only [List.replicate_succ, List.cons_append, parseDigitsAux, hd]
    simpa using ih

theorem padLeft_length (w : Nat) (cs : List Char) (h : cs.length ≤ w) :
    (padLeft w cs).length = w := by
  simp only [padLeft, List.length_append, List.length_replicate]
  omega

theorem parseDigits_eq_aux (cs : List Char) (h : cs ≠ []) :
    parseDigits cs = parseDigitsAux 0 cs := by
  cases cs with
  | nil => exact absurd rfl h
  | cons c rest => rfl

theorem parseDigits_pad_natToDigits (w n : Nat) :
    parseDigits (padLeft w (natToDigits n)) = some n := by
  have hne : padLeft w (natToDigits n) ≠ [] := by
    rw [padLeft]
    intro hnil
    exact natToDigits_ne_nil n (List.append_eq_nil.mp hnil).2
  rw [parseDigits_eq_aux _ hne, padLeft, parseDigitsAux_replicate_zero,
    parseDigitsAux_natToDigits n 0]
  simp

/-! ## Lemmas: splitting the formatted date at the dashes -/

theorem splitDash_no_dash (a : List Char) (h : ∀ c ∈ a, c ≠ '-') :
    splitDash a = [a] := by
  induction a with
  | nil => rfl
  | cons c cs ih =>
    have hc : c ≠ '-' := h c (by simp)
    have ih' := ih fun x hx => h x (by simp [hx])
    simp only [splitDash, if_neg hc, ih']

theorem splitDash_append (a r : List Char) (h : ∀ c ∈ a, c ≠ '-') :
    splitDash (a ++ '-' :: r) = a :: splitDash r := by
  induction a with
  | nil => simp [splitDash]
  | cons c cs ih =>
    have hc : c ≠ '-' := h c (by simp)
    have ih' := ih fun x hx => h x (by simp [hx])
    show splitDash (c :: (cs ++ '-' :: r)) = (c :: cs) :: splitDash r
    rw [splitDash, if_neg hc, ih']

theorem splitDash_three (a b c : List Char)
    (ha : ∀ x ∈ a, x ≠ '-') (hb : ∀ x ∈ b, x ≠ '-') (hc : ∀ x ∈ c, x ≠ '-') :
    splitDash (a ++ '-' :: (b ++ '-' :: c)) = [a, b, c] := by
  rw [splitDash_append a _ ha, splitDash_append b _ hb, splitDash_no_dash c hc]

theorem padLeft_natToDigits_ne_dash (w n : Nat) :
    ∀ c ∈ padLeft w (natToDigits n), c ≠ '-' := by
  intro c hc
  rw [padLeft, List.mem_append] at hc
  rcases hc with hc | hc
  · rw [List.eq_of_mem_replicate hc]
    decide
  · exact natToDigits_ne_dash n c hc

theorem daysInMonth_le (y m : Nat) : daysInMonth y m ≤ 31 := by
  rw [daysInMonth]
  split_ifs <;> norm_num

/-! ## The date round trip -/

theorem parse_format_date (d : PyDate) (h : d.valid = true) :
    parse_date (formatDate d) = some d := by
  have hprop : 1 ≤ d.year ∧ d.year ≤ 9999 ∧ 1 ≤ d.month ∧ d.month ≤ 12 ∧
      1 ≤ d.day ∧ d.day ≤ daysInMonth d.year d.month := of_decide_eq_true h
  obtain ⟨hy1, hy2, hm1, hm2, hd1, hd2⟩ := hprop
  have h4 : (natToDigits d.year).length ≤ 4 := by
    have h10 : (10:Nat) ^ 4 = 10000 := by norm_num
    exact natToDigits_length_le d.year 4 (by norm_num) (by omega)
  have hm' : (natToDigits d.month).length ≤ 2 := by
    have h10 : (10:Nat) ^ 2 = 100 := by norm_num
    exact natToDigits_length_le d.month 2 (by norm_num) (by omega)
  have hdm : daysInMonth d.year d.month ≤ 31 := daysInMonth_le d.year d.month
  have hd' : (natToDigits d.day).length ≤ 2 := by
    have h10 : (10:Nat) ^ 2 = 100 := by norm_num
    exact natToDigits_length_le d.day 2 (by norm_num) (by omega)
  have hsplit : splitDash (formatDate d).toList =
      [padLeft 4 (natToDigits d.year), padLeft 2 (natToDigits d.month),
        padLeft 2 (natToDigits d.day)] := by
    show splitDash (padLeft 4 (natToDigits d.year) ++
        '-' :: (padLeft 2 (natToDigits d.month) ++
          '-' :: padLeft 2 (natToDigits d.day))) = _
    exact splitDash_three _ _ _ (padLeft_natToDigits_ne_dash 4 _)
      (padLeft_natToDigits_ne_dash 2 _) (padLeft_natToDigits_ne_dash 2 _)
  simp only [parse_date, hsplit, padLeft_length 4 _ h4, padLeft_length 2 _ hm',
    padLeft_length 2 _ hd', parseDigits_pad_natToDigits]
  norm_num
  exact fun hcon => absurd (hcon hy1 hm1 hm2 hd1) (by omega)

/-! ## Claim C4: serialization round trip -/

/-- Claim C4: for every valid `Destination` `d` (dates with no time
component), deserializing the serialized record reproduces a `Destination`
equal to `d` in all six fields: `from_dict (to_dict d)` yields exactly the
image of `d`, and that image determines `d` field by field. -/
theorem from_dict_to_dict (d : Destination)
    (h1 : d.start_date.valid = true) (h2 : d.end_date.valid = true) :
    Destination.from_dict d.to_dict = some d.toLoaded
  ∧ ∀ d' : Destination, d'.toLoaded = d.toLoaded → d' = d := by
  constructor
  · have hs := parse_format_date d.start_date h1
    have he := parse_format_date d.end_date h2
    show (match parse_date (formatDate d.start_date),
        parse_date (formatDate d.end_date) with
      | some psd, some ped =>
        some ⟨Json.str d.city, Json.str d.country, psd, ped, Json.num d.budget,
          Json.arr (d.activities.map Json.str)⟩
      | _, _ => none) = some d.toLoaded
    rw [hs, he]
    rfl
  · intro d' hd
    simp only [Destination.toLoaded, LoadedDestination.mk.injEq, Json.str.injEq,
      Json.num.injEq, Json.arr.injEq] at hd
    obtain ⟨hc, hco, hsd, hed, hb, ha⟩ := hd
    have ha' : d'.activities = d.activities :=
      List.map_injective_iff.mpr (fun a b h => Json.str.inj h) ha
    cases d'
    cases d
    simp_all

/-- Witness for C4 at the spec's end-to-end example destination. -/
theorem from_dict_to_dict_witness :
    Destination.from_dict parisDest.to_dict = some parisDest.toLoaded :=
  (from_dict_to_dict parisDest (by decide) (by decide)).1

/-! ## Claim C9: the budget parser -/

/-- Claim C9: `check_positive` fails exactly when the budget string does not
parse as a number or parses to a value `≤ 0`; on every string parsing to a
strictly positive number it succeeds and returns that number. -/
theorem check_positive_spec (s : String) :
    (check_positive s = none ↔
      (parseFloat s = none ∨ ∃ v : ℚ, parseFloat s = some v ∧ v ≤ 0))
  ∧ ∀ v : ℚ, parseFloat s = some v → 0 < v → check_positive s = some v := by
  constructor
  · cases h : parseFloat s with
    | none => simp [check_positive, h]
    | some v =>
      simp only [check_positive, h]
      by_cases hv : v ≤ 0 <;> simp [hv]
  · intro v hv hpos
    simp [check_positive, hv, not_le.mpr hpos]

/-- Witness for C9: budget `0.01` is accepted with its value, `0` and `-5`
are rejected. -/
theorem check_positive_spec_witness :
    check_positive "0.01" = some (1/100) ∧ check_positive "0" = none ∧
      check_positive "-5" = none := by
  have h1 : parseFloat "0.01" =
      some ((1:ℚ) * (((0:Nat):ℚ) + ((1:Nat):ℚ) / (10:ℚ) ^ 2)) := rfl
  have h1' : parseFloat "0.01" = some (1/100) := by rw [h1]; norm_num
  have h2 : parseFloat "0" = some ((1:ℚ) * ((0:Nat):ℚ)) := rfl
  have h2' : parseFloat "0" = some 0 := by rw [h2]; norm_num
  have h3 : parseFloat "-5" = some ((-1:ℚ) * ((5:Nat):ℚ)) := rfl
  have h3' : parseFloat "-5" = some (-5) := by rw [h3]; norm_num
  exact ⟨(check_positive_spec "0.01").2 (1/100) h1' (by norm_num),
    (check_positive_spec "0").1.mpr (Or.inr ⟨0, h2', le_refl 0⟩),
    (check_positive_spec "-5").1.mpr (Or.inr ⟨-5, h3', by norm_num⟩)⟩

/-! ## Claim C8: date-range validation in the construction flow -/

theorem dateLt_irrefl (a : PyDate) : dateLt a a = false := by
  simp [dateLt]

/-- Claim C8: on inputs passing the earlier checks (both dates parse, the
budget is accepted, the activities list is nonempty), `add_flow` rejects
with `invalid_date_range` exactly when the parsed start date is strictly
after the parsed end date, and accepts equal start and end dates. -/
theorem add_flow_date_range (city country start end_ budget : String)
    (acts : List String) (ps pe : PyDate) (b : ℚ)
    (hs : parse_date start = some ps) (he : parse_date end_ = some pe)
    (hb : check_positive budget = some b) (ha : acts.isEmpty = false) :
    (add_flow city country start end_ budget acts = .invalid_date_range ↔
      dateLt pe ps = true)
  ∧ (ps = pe → add_flow city country start end_ budget acts =
      .added ⟨city, country, ps, pe, b, acts⟩) := by
  constructor
  · simp only [add_flow, hs, he, hb, ha]
    by_cases hd : dateLt pe ps <;> simp [hd]
  · intro hpe
    subst hpe
    simp [add_flow, hs, he, hb, ha, dateLt_irrefl]

/-- Witness for C8: equal start and end dates are accepted. -/
theorem add_flow_date_range_witness :
    add_flow "Paris" "France" "2025-06-01" "2025-06-01" "100" ["museum"] =
      .added ⟨"Paris", "France", ⟨2025, 6, 1⟩, ⟨2025, 6, 1⟩, 100, ["museum"]⟩ :=
  (add_flow_date_range "Paris" "France" "2025-06-01" "2025-06-01" "100"
    ["museum"] ⟨2025, 6, 1⟩ ⟨2025, 6, 1⟩ 100 (by decide) (by decide)
    (by
      have h : parseFloat "100" = some ((1:ℚ) * ((100:Nat):ℚ)) := rfl
      simp only [check_positive, h]
      norm_num)
    (by decide)).2 rfl

/-! ## Claim C2: unknown field names in `update_details` -/

/-- Counterexample to C2 as stated: `"to_dict"` is not one of the six field
names, yet `update_details` does not fail on it with an `AttributeError` —
`hasattr` also finds the method of that name, so `setattr` silently shadows
it instead of raising. -/
theorem update_details_method_name_cex :
    parisDest.update_details [("to_dict", some (.vq 5))] = (parisDest, none)
  ∧ "to_dict" ∉ fieldNames := by
  exact ⟨rfl, by decide⟩

/-- Claim C2 (amended): a supplied non-null entry fails with `UnknownField`
exactly when its key is not an attribute of the destination object (a data
field or a class method name); each of the six field names with a non-null
well-typed value overwrites precisely that field. -/
theorem update_details_single (d : Destination) (k : String) (v : Val) :
    (destHasAttr k = false → d.update_details [(k, some v)] = (d, some k))
  ∧ (∀ s, d.update_details [("city", some (.vs s))] = ({ d with city := s }, none))
  ∧ (∀ s, d.update_details [("country", some (.vs s))] = ({ d with country := s }, none))
  ∧ (∀ t, d.update_details [("start_date", some (.vd t))] = ({ d with start_date := t }, none))
  ∧ (∀ t, d.update_details [("end_date", some (.vd t))] = ({ d with end_date := t }, none))
  ∧ (∀ q, d.update_details [("budget", some (.vq q))] = ({ d with budget := q }, none))
  ∧ (∀ l, d.update_details [("activities", some (.vl l))] = ({ d with activities := l }, none)) := by
  refine ⟨fun h => ?_, fun s => rfl, fun s => rfl, fun t => rfl, fun t => rfl,
    fun q => rfl, fun l => rfl⟩
  simp [Destination.update_details, h]

/-- Witness for C2 (amended): a name that is not an attribute at all fails. -/
theorem update_details_single_witness :
    parisDest.update_details [("bogus", some (.vq 1))] = (parisDest, some "bogus") :=
  (update_details_single parisDest "bogus" (.vq 1)).1 (by decide)

/-! ## Claim C3: (non-)atomicity of failing updates -/

/-- Counterexample to C3 as stated: supplying a valid field before an
unknown one fails with the unknown-field error, but the valid field has
already been overwritten — the matching entry does not retain its prior
state, so the update is not atomic for mixtures. -/
theorem update_not_atomic_cex :
    update_destination [parisDest] "Paris"
        [("budget", some (.vq 5)), ("bogus", some (.vq 1))] =
      ([{ parisDest with budget := 5 }], .error "bogus")
  ∧ ({ parisDest with budget := (5:ℚ) }).budget ≠ parisDest.budget := by
  refine ⟨rfl, ?_⟩
  norm_num [parisDest]

theorem update_details_no_valid_frame (d : Destination)
    (kw : List (String × Option Val))
    (h : ∀ e ∈ kw, e.2 = none ∨ destHasAttr e.1 = false) :
    (d.update_details kw).1 = d := by
  induction kw generalizing d with
  | nil => rfl
  | cons e rest ih =>
    obtain ⟨k, v⟩ := e
    cases v with
    | none => exact ih d (fun e he => h e (List.mem_cons_of_mem _ he))
    | some v =>
      have hk : destHasAttr k = false := by
        rcases h (k, some v) (List.mem_cons_self _ _) with hno | hf
        · exact absurd hno (by simp)
        · exact hf
      simp [Destination.update_details, hk]

theorem update_destination_no_valid_frame (ds : List Destination) (city : String)
    (kw : List (String × Option Val))
    (hnv : ∀ e ∈ kw, e.2 = none ∨ destHasAttr e.1 = false) :
    (update_destination ds city kw).1 = ds := by
  induction ds with
  | nil => rfl
  | cons d tl ih =>
    have hd : (d.update_details kw).1 = d := update_details_no_valid_frame d kw hnv
    rcases hp : d.update_details kw with ⟨d', e⟩
    rw [hp] at hd
    simp only at hd
    rcases hq : update_destination tl city kw with ⟨tl', r⟩
    rw [hq] at ih
    simp only at ih
    by_cases hm : cityMatch d city = true
    · cases e with
      | none => cases r <;> simp [update_destination, hm, hp, hq, hd, ih]
      | some k => simp [update_destination, hm, hp, hd]
    · simp [update_destination, hm, hq, ih]

/-- Claim C3 (amended): when a failing update supplies no valid non-null
field at all (for instance the unknown key alone, as in the spec's
example), the collection — and so every matching entry — is unchanged;
with a valid field supplied before the unknown one the entry is partially
overwritten, as the counterexample shows. -/
theorem update_destination_frame_on_err (ds : List Destination) (city k : String)
    (kw : List (String × Option Val))
    (hnv : ∀ e ∈ kw, e.2 = none ∨ destHasAttr e.1 = false)
    (_herr : (update_destination ds city kw).2 = .error k) :
    (update_destination ds city kw).1 = ds :=
  update_destination_no_valid_frame ds city kw hnv

/-- Witness for C3 (amended): the unknown key alone fails and leaves the
single `"Paris"` entry unchanged. -/
theorem update_destination_frame_on_err_witness :
    (update_destination [parisDest] "Paris" [("bogus", some (.vq 1))]).1 =
      [parisDest] :=
  update_destination_frame_on_err [parisDest] "Paris" "bogus"
    [("bogus", some (.vq 1))] (by decide) rfl

/-! ## Claim C7: manager update hits every match -/

theorem update_details_valid_no_err (d : Destination)
    (kw : List (String × Option Val))
    (hv : ∀ e ∈ kw, e.2 = none ∨ e.1 ∈ fieldNames) :
    (d.update_details kw).2 = none := by
  induction kw generalizing d with
  | nil => rfl
  | cons e rest ih =>
    obtain ⟨k, v⟩ := e
    cases v with
    | none => exact ih d (fun e he => hv e (List.mem_cons_of_mem _ he))
    | some v =>
      have hk : k ∈ fieldNames := by
        rcases hv (k, some v) (List.mem_cons_self _ _) with hno | hf
        · exact absurd hno (by simp)
        · exact hf
      have hattr : destHasAttr k = true := by simp [destHasAttr, hk]
      simp only [Destination.update_details, hattr, if_true]
      exact ih _ (fun e he => hv e (List.mem_cons_of_mem _ he))

/-- Claim C7: with every supplied field either null or among the six valid
field names, `update_destination` applies `update_details` to every
destination whose city matches case-insensitively (not just one) and
reports whether at least one matching entry was found. -/
theorem update_destination_all_matches (ds : List Destination) (city : String)
    (kw : List (String × Option Val))
    (hv : ∀ e ∈ kw, e.2 = none ∨ e.1 ∈ fieldNames) :
    update_destination ds city kw =
      (ds.map fun d => if cityMatch d city then (d.update_details kw).1 else d,
        .ok (ds.any fun d => cityMatch d city)) := by
  induction ds with
  | nil => rfl
  | cons d tl ih =>
    have hno : (d.update_details kw).2 = none := update_details_valid_no_err d kw hv
    rcases hp : d.update_details kw with ⟨d', e⟩
    rw [hp] at hno
    simp only at hno
    subst hno
    by_cases hm : cityMatch d city = true
    · simp [update_destination, hm, hp, ih]
    · simp [update_destination, hm, ih]

/-- Witness for C7: the spec's multi-match example — both `"Goa"` entries
receive the budget update and the call reports success. -/
theorem update_destination_all_matches_witness :
    update_destination [goaDest1, goaDest2] "Goa" [("budget", some (.vq 5000))] =
      ([{ goaDest1 with budget := 5000 }, { goaDest2 with budget := 5000 }],
        .ok true) :=
  (update_destination_all_matches [goaDest1, goaDest2] "Goa"
    [("budget", some (.vq 5000))]
    (fun e he => Or.inr (by
      rw [List.mem_singleton.mp he]
      decide))).trans rfl

/-! ## Claim C6: remove deletes all matches -/

theorem foldl_removeFirst_cons (p : Destination → Bool) (d : Destination)
    (hd : p d = false) :
    ∀ ms : List Destination, (∀ m ∈ ms, p m = true) → ∀ tl : List Destination,
      List.foldl removeFirst (d :: tl) ms = d :: List.foldl removeFirst tl ms := by
  intro ms
  induction ms with
  | nil => intro _ tl; rfl
  | cons m ms ih =>
    intro hm tl
    have hpm : p m = true := hm m (List.mem_cons_self _ _)
    have hne : d ≠ m := by
      intro he
      rw [he, hpm] at hd
      exact absurd hd (by decide)
    simp only [List.foldl_cons, removeFirst, if_neg hne]
    exact ih (fun x hx => hm x (List.mem_cons_of_mem _ hx)) (removeFirst tl m)

theorem foldl_removeFirst_filter (ds : List Destination) (p : Destination → Bool) :
    List.foldl removeFirst ds (ds.filter p) = ds.filter fun d => !(p d) := by
  induction ds with
  | nil => rfl
  | cons d tl ih =>
    by_cases hp : p d = true
    · rw [List.filter_cons_of_pos hp]
      simp only [List.foldl_cons]
      rw [show removeFirst (d :: tl) d = tl from by simp [removeFirst]]
      rw [ih, List.filter_cons_of_neg (by simp [hp])]
    · have hp' : p d = false := by simpa using hp
      rw [List.filter_cons_of_neg (by simp [hp'])]
      rw [foldl_removeFirst_cons p d hp' (tl.filter p)
        (fun m hm => List.of_mem_filter hm) tl]
      rw [ih, List.filter_cons_of_pos (by simp [hp'])]

/-- Claim C6: `remove_destination` deletes all destinations whose city
matches case-insensitively (the survivors are exactly the non-matching
entries, in order), and returns `true` iff at least one entry matched (and
was removed); no match yields `false`, not an error. -/
theorem remove_destination_spec (ds : List Destination) (city : String) :
    (remove_destination ds city).1 = ds.filter (fun d => !(cityMatch d city))
  ∧ ((remove_destination ds city).2 = true ↔ ∃ d ∈ ds, cityMatch d city = true) := by
  rcases hfe : ds.filter (fun d => cityMatch d city) with _ | ⟨d0, rest⟩
  · have hall : ∀ d ∈ ds, cityMatch d city = false := by
      intro d hd
      cases hb : cityMatch d city with
      | false => rfl
      | true =>
        have hmem : d ∈ ds.filter (fun d => cityMatch d city) :=
          List.mem_filter.mpr ⟨hd, hb⟩
        rw [hfe] at hmem
        exact absurd hmem (List.not_mem_nil d)
    have hfilter : ds.filter (fun d => !(cityMatch d city)) = ds :=
      List.filter_eq_self.mpr fun a ha => by simp [hall a ha]
    have hrm : remove_destination ds city = (ds, false) := by
      simp [remove_destination, hfe]
    rw [hrm, hfilter]
    refine ⟨rfl, ?_⟩
    simpa using hall
  · have hd0 : d0 ∈ ds.filter (fun d => cityMatch d city) := by
      rw [hfe]
      exact List.mem_cons_self _ _
    have hex : ∃ d ∈ ds, cityMatch d city = true :=
      ⟨d0, (List.mem_filter.mp hd0).1, (List.mem_filter.mp hd0).2⟩
    have hrm : remove_destination ds city =
        ((d0 :: rest).foldl removeFirst ds, true) := by
      simp [remove_destination, hfe]
    rw [hrm, ← hfe, foldl_removeFirst_filter ds _]
    exact ⟨rfl, by simpa using hex⟩

/-! ## Claim C5: search returns exactly the matching subsequence -/

theorem isSubstr_nil (h : List Char) : isSubstr [] h = true := by
  cases h with
  | nil => rfl
  | cons c t => simp [isSubstr, List.isPrefixOf]

/-- Claim C5: `search_destination` returns exactly the destinations whose
city, country, or some activity contains the term as a case-insensitive
substring, as a stable subsequence in original collection order, and the
empty term returns all entries unchanged. -/
theorem search_destination_spec (m : ItineraryManager) (s : String) :
    (m.search_destination s).2 = m.destinations.filter (specMatch s)
  ∧ ((m.search_destination s).2).Sublist m.destinations
  ∧ (m.search_destination "").2 = m.destinations := by
  refine ⟨rfl, List.filter_sublist _, ?_⟩
  have h1 : (m.search_destination "").2 = m.destinations.filter (specMatch "") := rfl
  rw [h1]
  apply List.filter_eq_self.mpr
  intro a _
  simp only [specMatch, show ("".toList.map Char.toLower) = ([] : List Char) from rfl]
  simp [isSubstr_nil]

/-! ## Claim C10: search does not mutate the collection -/

/-- Claim C10: for every search term and every collection state, search
leaves the manager's collection unchanged — the state component of the
call's outcome is the very manager it started from, destination list
included. -/
theorem search_destination_frame (m : ItineraryManager) (s : String) :
    (m.search_destination s).1 = m
  ∧ ((m.search_destination s).1).destinations = m.destinations :=
  ⟨rfl, rfl⟩

/-! ## Claim C1: error handling in `load_from_file` -/

/-- Counterexample to C1 as stated: the file content `"[{}]"` is valid JSON
but not a sequence of correctly-shaped destination records; `load_from_file`
neither resets the collection nor reports a diagnostic — the `KeyError`
raised by `from_dict` propagates to the caller and the prior collection is
kept. -/
theorem load_shape_error_cex :
    load_from_file [sampleLoaded] (.json (.arr [.obj []])) =
      ⟨[sampleLoaded], false, true⟩
  ∧ ([sampleLoaded] : List LoadedDestination) ≠ [] :=
  ⟨rfl, fun h => List.noConfusion h⟩

/-- Claim C1 (amended): for an existing file, unreadable content
(`IOError`) or content that is not JSON (`JSONDecodeError`) resets the
collection to empty with a reported diagnostic and no exception; but
content that parses as JSON and then fails to decode into destination
records raises past `load`, leaving the prior collection in place and
printing no diagnostic. -/
theorem load_error_handling (cur : List LoadedDestination) (j : Json)
    (hj : decodeData j = none) :
    load_from_file cur .ioError = ⟨[], true, false⟩
  ∧ load_from_file cur .badJson = ⟨[], true, false⟩
  ∧ load_from_file cur (.json j) = ⟨cur, false, true⟩ := by
  refine ⟨rfl, rfl, ?_⟩
  simp [load_from_file, hj]

/-- Witness for C1 (amended), at the concrete JSON value `[3]` (a list
whose element is not a record). -/
theorem load_error_handling_witness :
    load_from_file [sampleLoaded] .ioError = ⟨[], true, false⟩
  ∧ load_from_file [sampleLoaded] .badJson = ⟨[], true, false⟩
  ∧ load_from_file [sampleLoaded] (.json (.arr [.num 3])) =
      ⟨[sampleLoaded], false, true⟩ :=
  load_error_handling [sampleLoaded] (.arr [.num 3]) rfl
